import Mathlib

set_option autoImplicit false

/-!
Verification of the markdown task-document model and weekly-rollover
transition of the mcp-tasks server, as a shallow embedding.

JavaScript strings are modelled as lists of characters (JSStr); a document
is the raw text, split on the newline character exactly as the source does
with content.split, and rejoined with join.  Fallible operations return
Except with the error message the source would throw.
-/

namespace McpTasks

/-- JavaScript strings, modelled as lists of characters. -/
abbrev JSStr := List Char

/-- Whitespace characters recognised by the trim operations (the inputs in
scope are ASCII, so the four ASCII whitespace characters suffice). -/
def isJsSpace (c : Char) : Bool :=
  c = ' ' || c = '\t' || c = '\n' || c = '\r'

/-- String.prototype.trim: drop whitespace from both ends. -/
def jsTrim (s : JSStr) : JSStr :=
  ((s.dropWhile isJsSpace).reverse.dropWhile isJsSpace).reverse

/-- String.prototype.startsWith. -/
def jsStartsWith : JSStr → JSStr → Bool
  | _, [] => true
  | [], _ :: _ => false
  | c :: s, p :: ps => c = p && jsStartsWith s ps

/-- String.prototype.toLowerCase (ASCII). -/
def jsToLower (s : JSStr) : JSStr := s.map Char.toLower

/-- content.split on the newline character: the empty string yields one
empty line, and every newline separates two lines (the recursion keeps the
invariant that the result is non-empty, so prepending to the head line is
total). -/
def splitLines : JSStr → List JSStr
  | [] => [[]]
  | c :: rest =>
    let r := splitLines rest
    if c = '\n' then [] :: r else (c :: r.headI) :: r.tail

/-- lines.join with the newline character. -/
def joinLines : List JSStr → JSStr
  | [] => []
  | [l] => l
  | l :: ls => l ++ '\n' :: joinLines (ls)

/-- String.prototype.includes: case-sensitive substring containment. -/
def jsIncludes : JSStr → JSStr → Bool
  | hay, needle =>
    if needle.isPrefixOf hay then true
    else
      match hay with
      | [] => false
      | _ :: t => jsIncludes t needle

/-- Decimal rendering of a natural number, for error messages. -/
def natStr (n : Nat) : JSStr := (Nat.repr n).data

/-- Array.prototype.join with a separator string. -/
def joinSep : JSStr → List JSStr → JSStr
  | _, [] => []
  | _, [x] => x
  | sep, x :: y :: xs => x ++ sep ++ joinSep sep (y :: xs)

example : splitLines (("a\nb\n").data) = [('a' :: []), ('b' :: []), []] := by decide

example : joinLines [('a' :: []), ('b' :: []), []] = ("a\nb\n").data := by decide

example : jsTrim (("  x ").data) = ('x' :: []) := by decide

example : jsIncludes (("Write tests").data) (("tests").data) = true := by decide

/-! ### Status model (src/utils/taskStatus.ts) -/

/-- The three-state task status enumeration. -/
inductive TaskStatus
  | new
  | completed
  | closed
  deriving DecidableEq, Repr

/-- Maps task status to checkbox character. -/
def getStatusChar : TaskStatus → Char
  | .completed => 'x'
  | .closed => '-'
  | .new => ' '

/-- Parses checkbox character to task status; unknown characters default
to new. -/
def parseStatusChar (c : Char) : TaskStatus :=
  if c = 'x' then .completed
  else if c = '-' then .closed
  else .new

/-- Checks if a status represents a finished task. -/
def isFinishedStatus (s : TaskStatus) : Bool :=
  s = .completed || s = .closed

/-! ### Document parser (src/utils/markdown/parsing.ts) -/

/-- A parsed markdown section: title, raw content lines, and the 0-based
line range in the full document (the header line is startLine and the last
content line is endLine). -/
structure TaskSection where
  title : JSStr
  content : List JSStr
  startLine : Nat
  endLine : Nat
  deriving DecidableEq, Repr

/-- A line opens a section exactly when it starts with hash-space. -/
def isHeaderLine (line : JSStr) : Bool :=
  jsStartsWith line ('#' :: ' ' :: [])

/-- line.substring(2).trim() on a header line. -/
def titleOfHeader (line : JSStr) : JSStr :=
  jsTrim (line.drop 2)

/-- Save the currently open section, if any, closing it at line endIdx. -/
def closeSection (cur : Option (JSStr × List JSStr × Nat)) (endIdx : Nat) (acc : List TaskSection) : List TaskSection :=
  match cur with
  | none => acc
  | some (t, c, s) => acc ++ [⟨t, c, s, endIdx⟩]

/-- Push a content line onto the currently open section, if any (lines
before the first header are dropped). -/
def extendSection (cur : Option (JSStr × List JSStr × Nat)) (line : JSStr) : Option (JSStr × List JSStr × Nat) :=
  match cur with
  | none => none
  | some (t, c, s) => some (t, c ++ [line], s)

/-- The loop of parseMarkdownSections: idx is the 0-based index of the next
line, cur the currently open section as (title, content so far, startLine),
acc the sections already closed.  On a header line the open section is
closed with endLine = idx - 1; at the end of input it is closed with
endLine = total line count - 1. -/
def parseGo : List JSStr → Nat → Option (JSStr × List JSStr × Nat) → List TaskSection → List TaskSection
  | [], idx, cur, acc => closeSection cur (idx - 1) acc
  | line :: rest, idx, cur, acc =>
    if isHeaderLine line then
      parseGo rest (idx + 1) (some (titleOfHeader line, [], idx)) (closeSection cur (idx - 1) acc)
    else
      parseGo rest (idx + 1) (extendSection cur line) acc

/-- parseMarkdownSections: split on newline and scan the lines in order. -/
def parseMarkdownSections (content : JSStr) : List TaskSection :=
  parseGo (splitLines content) 0 none []

/-! ### Task-line codec -/

/-- A line qualifies as a description line when it starts with two spaces
and does not trim to the empty string. -/
def descQualifies (line : JSStr) : Bool :=
  jsStartsWith line (' ' :: ' ' :: []) && !(jsTrim line).isEmpty

/-- getTaskDescriptionLines: the run of qualifying lines from startIndex,
stopped at the first disqualifying line or the end of the array. -/
def getTaskDescriptionLines (lines : List JSStr) (startIndex : Nat) : List JSStr :=
  (lines.drop startIndex).takeWhile descQualifies

/-- The task-line shape used by removeTask and the rollover partition:
dash, space, bracketed status character, space after the closing bracket. -/
def taskHeadChar : JSStr → Option Char
  | '-' :: ' ' :: '[' :: c :: ']' :: ' ' :: _ =>
    if c = ' ' || c = 'x' || c = '-' then some c else none
  | _ => none

/-- The anchored checkbox shape used by updateTaskStatus (no trailing space
required): splits off the five-character checkbox head and the remainder. -/
def checkboxSplit : JSStr → Option (Char × JSStr)
  | '-' :: ' ' :: '[' :: c :: ']' :: rest =>
    if c = ' ' || c = 'x' || c = '-' then some (c, rest) else none
  | _ => none

/-- The full-line task shape used by updateTaskText and the locator:
checkbox head, space, then at least one character of text. -/
def taskFullSplit : JSStr → Option (Char × JSStr)
  | '-' :: ' ' :: '[' :: c :: ']' :: ' ' :: rest =>
    if (c = ' ' || c = 'x' || c = '-') && !rest.isEmpty then some (c, rest)
    else none
  | _ => none

/-! ### Line-addressed mutators (src/utils/markdown/updateTask.ts and
removeTask.ts) -/

/-- lines[lineNumber - 1] with JS array semantics: index -1 (from
lineNumber 0) and indices past the end are undefined. -/
def lineAt (lines : List JSStr) (n : Nat) : Option JSStr :=
  if n = 0 then none else lines.get? (n - 1)

/-- Error message thrown when the addressed line is missing or empty. -/
def lineNotFoundMsg (n : Nat) : JSStr :=
  ("Line ").data ++ natStr n ++ (" not found in content").data

/-- Error message thrown when the addressed line is not a task line. -/
def noTaskMsg (n : Nat) : JSStr :=
  ("No task found at line ").data ++ natStr n

/-- Error message thrown when the insertion target section is absent. -/
def sectionNotFoundMsg (t : JSStr) : JSStr :=
  ("Section \"").data ++ t ++ ("\" not found").data

/-- updateTaskStatus: regex-replace the checkbox head of the addressed
line; if the replacement leaves the line unchanged the line is reported as
not a task. -/
def updateTaskStatus (content : JSStr) (lineNumber : Nat) (newStatus : TaskStatus) : Except JSStr JSStr :=
  let lines := splitLines content
  match lineAt lines lineNumber with
  | none => .error (lineNotFoundMsg lineNumber)
  | some targetLine =>
    if targetLine = [] then .error (lineNotFoundMsg lineNumber)
    else
      let statusChar := getStatusChar newStatus
      let updatedLine :=
        match checkboxSplit targetLine with
        | some (_, rest) => '-' :: ' ' :: '[' :: statusChar :: ']' :: rest
        | none => targetLine
      if updatedLine = targetLine then .error (noTaskMsg lineNumber)
      else .ok (joinLines (lines.set (lineNumber - 1) updatedLine))

/-- updateTaskText: keep the status character, replace the text portion. -/
def updateTaskText (content : JSStr) (lineNumber : Nat) (newText : JSStr) : Except JSStr JSStr :=
  let lines := splitLines content
  match lineAt lines lineNumber with
  | none => .error (lineNotFoundMsg lineNumber)
  | some targetLine =>
    if targetLine = [] then .error (lineNotFoundMsg lineNumber)
    else
      match taskFullSplit targetLine with
      | none => .error (noTaskMsg lineNumber)
      | some (status, _) =>
        .ok (joinLines (lines.set (lineNumber - 1)
          ('-' :: ' ' :: '[' :: status :: ']' :: ' ' :: newText)))

/-- updateTaskDescription: remove the description block following the
addressed line, then insert the new 2-space-indented block when the new
description is non-null and not blank. -/
def updateTaskDescription (content : JSStr) (taskLineNumber : Nat) (newDescription : Option JSStr) : Except JSStr JSStr :=
  let lines := splitLines content
  match lineAt lines taskLineNumber with
  | none => .error (lineNotFoundMsg taskLineNumber)
  | some taskLine =>
    if taskLine = [] then .error (lineNotFoundMsg taskLineNumber)
    else
      let descriptionLines := getTaskDescriptionLines lines taskLineNumber
      let endLine := taskLineNumber - 1 + descriptionLines.length
      let newLines := lines.take taskLineNumber ++ lines.drop (endLine + 1)
      let newLines' :=
        match newDescription with
        | some d =>
          if jsTrim d ≠ [] then
            newLines.take taskLineNumber
              ++ (splitLines d).map (fun l => ' ' :: ' ' :: l)
              ++ newLines.drop taskLineNumber
          else newLines
        | none => newLines
      .ok (joinLines newLines')

/-- removeTask: remove the task line and its trailing description block as
one unit. -/
def removeTask (content : JSStr) (lineNumber : Nat) : Except JSStr JSStr :=
  let lines := splitLines content
  match lineAt lines lineNumber with
  | none => .error (lineNotFoundMsg lineNumber)
  | some taskLine =>
    if taskLine = [] then .error (lineNotFoundMsg lineNumber)
    else
      match taskHeadChar taskLine with
      | none => .error (noTaskMsg lineNumber)
      | some _ =>
        let descriptionLines := getTaskDescriptionLines lines lineNumber
        let endLine := lineNumber - 1 + descriptionLines.length
        .ok (joinLines (lines.take (lineNumber - 1) ++ lines.drop (endLine + 1)))

/-! ### Section-scoped insertion (src/utils/markdown/addTask.ts) -/

/-- The pop loop removing trailing blank (whitespace-only) lines from the
section content before appending the new task. -/
def popTrailingBlanks (l : List JSStr) : List JSStr :=
  (l.reverse.dropWhile (fun x => (jsTrim x).isEmpty)).reverse

/-- The indented description block of an inserted task: one 2-space-prefixed
line per input line, with an undefined or empty description contributing
nothing. -/
def descLinesOf (description : Option JSStr) : List JSStr :=
  match description with
  | some d => if d ≠ [] then (splitLines d).map (fun l => ' ' :: ' ' :: l) else []
  | none => []

/-- addTaskToSection: find the section case-insensitively, append the task
line and its indented description lines at the end of the section content
(after trimming trailing blanks), followed by one blank line, and rebuild
the document from the line ranges. -/
def addTaskToSection (content sectionTitle taskText : JSStr) (description : Option JSStr) : Except JSStr JSStr :=
  let sections := parseMarkdownSections content
  match sections.find? (fun s => jsToLower s.title == jsToLower sectionTitle) with
  | none => .error (sectionNotFoundMsg sectionTitle)
  | some targetSection =>
    let taskLines := ('-' :: ' ' :: '[' :: ' ' :: ']' :: ' ' :: taskText) :: descLinesOf description
    let updatedContent := popTrailingBlanks targetSection.content ++ taskLines ++ [[]]
    let lines := splitLines content
    .ok (joinLines (lines.take (targetSection.startLine + 1)
      ++ updatedContent ++ lines.drop (targetSection.endLine + 1)))

example :
    parseMarkdownSections (("# This Week\n- [ ] A\n\n# Next Week\n").data)
      = [⟨("This Week").data, [("- [ ] A").data, []], 0, 2⟩,
         ⟨("Next Week").data, [[]], 3, 4⟩] := by decide

instance exceptDecEq {ε α : Type} [DecidableEq ε] [DecidableEq α] : DecidableEq (Except ε α) := fun a b =>
  match a, b with
  | .ok x, .ok y =>
    if h : x = y then .isTrue (by rw [h]) else .isFalse (fun hh => by cases hh; exact h rfl)
  | .error x, .error y =>
    if h : x = y then .isTrue (by rw [h]) else .isFalse (fun hh => by cases hh; exact h rfl)
  | .ok _, .error _ => .isFalse (fun hh => by cases hh)
  | .error _, .ok _ => .isFalse (fun hh => by cases hh)

example :
    updateTaskStatus (("- [ ] A").data) 1 .completed
      = .ok (("- [x] A").data) := by decide

example :
    updateTaskStatus (("- [x] A").data) 1 .completed
      = .error (noTaskMsg 1) := by decide

example :
    removeTask (("- [ ] A\n  d\nB").data) 1 = .ok (("B").data) := by decide

example :
    addTaskToSection (("# A\nx\n\n\n# B\n").data) (("a").data) (("t").data) none
      = .ok (("# A\nx\n- [ ] t\n\n# B\n").data) := by decide

/-! ### Task locator (src/utils/taskIdentifier.ts) -/

/-- The two live documents tasks are drawn from. -/
inductive TaskFile
  | current
  | backlog
  deriving DecidableEq, Repr

/-- A search result: a task with its file, section title, trimmed text,
1-based document line number, and status flags. -/
structure TaskMatch where
  file : TaskFile
  sectionTitle : JSStr
  taskText : JSStr
  lineNumber : Nat
  isCompleted : Bool
  isClosed : Bool
  deriving DecidableEq, Repr

/-- parseTaskLine: full task-line match, returning the trimmed text and
the status flags. -/
def parseTaskLine (line : JSStr) : Option (JSStr × Bool × Bool) :=
  match taskFullSplit line with
  | none => none
  | some (status, text) => some (jsTrim text, status = 'x', status = '-')

/-- findTasksInFile on an explicit document: per section, the j-th content
line carries the 1-based document line number startLine + 2 + j. -/
def findTasksInDoc (file : TaskFile) (content : JSStr) : List TaskMatch :=
  (parseMarkdownSections content).flatMap (fun s =>
    (s.content.enum).filterMap (fun p =>
      match parseTaskLine p.2 with
      | none => none
      | some (text, comp, cl) =>
        some ⟨file, s.title, text, s.startLine + 2 + p.1, comp, cl⟩))

/-- findAllTasks: tasks of the current document followed by tasks of the
backlog document. -/
def findAllTasks (cur bl : JSStr) : List TaskMatch :=
  findTasksInDoc .current cur ++ findTasksInDoc .backlog bl

/-- Error message for a blank identifier. -/
def emptyIdMsg : JSStr := ("Task identifier cannot be empty").data

/-- findMatchingTasks: case-insensitive substring containment over all
tasks, original order preserved. -/
def findMatchingTasks (cur bl identifier : JSStr) : Except JSStr (List TaskMatch) :=
  if jsTrim identifier = [] then .error emptyIdMsg
  else
    let lowerIdentifier := jsToLower identifier
    .ok ((findAllTasks cur bl).filter
      (fun t => jsIncludes (jsToLower t.taskText) lowerIdentifier))

/-- Wraps a task text in double quotes, as the error messages do. -/
def quoteStr (s : JSStr) : JSStr := '"' :: s ++ ('"' :: [])

/-- The separator of the enumerations in the locator error messages. -/
def commaSep : JSStr := (", ").data

/-- The no-match error message: either up to three quoted suggestions, or
a statement that no tasks are available. -/
def noMatchMsg (identifier suggestions : JSStr) : JSStr :=
  ("No matching tasks found for \"").data ++ identifier ++ ("\". ").data
    ++ (if suggestions ≠ [] then ("Did you mean: ").data ++ suggestions ++ ('?' :: [])
        else ("No tasks available.").data)

/-- The ambiguous-match error message enumerating the matches. -/
def ambiguousMsg (identifier matchList : JSStr) : JSStr :=
  ("Multiple matches found for \"").data ++ identifier ++ ("\": ").data
    ++ matchList ++ (". Please be more specific.").data

/-- One entry of the ambiguous-match enumeration: quoted text plus the
section name. -/
def matchEntry (m : TaskMatch) : JSStr :=
  quoteStr m.taskText ++ (" (in ").data ++ m.sectionTitle ++ (')' :: [])

/-- validateTaskMatch: the 0 / 1 / more-than-1 disambiguation branch. -/
def validateTaskMatch (cur bl identifier : JSStr) : Except JSStr TaskMatch :=
  match findMatchingTasks cur bl identifier with
  | .error e => .error e
  | .ok ms =>
    match ms with
    | [] =>
      let suggestions :=
        joinSep commaSep ((((findAllTasks cur bl).map (fun t => t.taskText)).take 3).map quoteStr)
      .error (noMatchMsg identifier suggestions)
    | [m] => .ok m
    | m1 :: m2 :: rest =>
      .error (ambiguousMsg identifier (joinSep commaSep ((m1 :: m2 :: rest).map matchEntry)))

/-! ### Rollover engine (src/tools/startWeek.ts) -/

/-- The partition loop of filterTasksByCompletion, with explicit fuel (the
source loop consumes at least one line per iteration, so fuel equal to the
line count makes the two agree). -/
def filterGo : Nat → List JSStr → List JSStr → List JSStr → List JSStr × List JSStr
  | 0, _, fin, unfin => (fin, unfin)
  | _ + 1, [], fin, unfin => (fin, unfin)
  | fuel + 1, line :: rest, fin, unfin =>
    match taskHeadChar line with
    | some statusChar =>
      let status := parseStatusChar statusChar
      let descriptionLines := getTaskDescriptionLines (line :: rest) 1
      let taskLines := line :: descriptionLines
      let rest' := rest.drop descriptionLines.length
      if isFinishedStatus status then filterGo fuel rest' (fin ++ taskLines) unfin
      else filterGo fuel rest' fin (unfin ++ taskLines)
    | none =>
      if (jsTrim line).isEmpty then
        filterGo fuel rest fin (if unfin.length > 0 then unfin ++ [line] else unfin)
      else filterGo fuel rest fin unfin

/-- filterTasksByCompletion: partition the section lines into finished and
unfinished task blocks, keeping blank lines in the unfinished bucket once
it is non-empty. -/
def filterTasksByCompletion (sectionContent : List JSStr) : List JSStr × List JSStr :=
  filterGo sectionContent.length sectionContent [] []

/-- appendToFile (src/utils/fileOperations.ts) as a pure function on the
existing document text. -/
def appendToArchive (existingContent newContent : JSStr) : JSStr :=
  let trimmed := jsTrim existingContent
  if trimmed ≠ [] then trimmed ++ ('\n' :: '\n' :: newContent) else newContent

/-- The header line of a new archive section. -/
def archiveHeader (archiveDate : JSStr) : JSStr :=
  ("# Week of ").data ++ archiveDate

/-- addWeekToArchive: append the archived section under its week header. -/
def addWeekToArchive (archiveDate : JSStr) (thisWeekContent : List JSStr) (archive : JSStr) : JSStr :=
  appendToArchive archive (joinLines (archiveHeader archiveDate :: thisWeekContent))

/-- rebuildCurrentFile: the active document rebuilt from scratch. -/
def rebuildCurrentLines (newThisWeekTasks : List JSStr) : JSStr :=
  joinLines ((("# This Week").data) :: newThisWeekTasks
    ++ ([] :: (("# Next Week").data) :: [] :: []))

/-- The two document stores the transition touches. -/
structure Workspace where
  current : JSStr
  archive : JSStr
  deriving DecidableEq, Repr

def thisWeekTitle : JSStr := ("This Week").data

def nextWeekTitle : JSStr := ("Next Week").data

def missingSectionsMsg : JSStr := ("Required sections not found in current.md").data

/-- performWeekTransition, with the date provider and the checkpoint
service as explicit inputs: returns the final workspace, the checkpoint
commit messages issued, and the outcome.  A missing required section
aborts before any document write. -/
def performWeekTransition (archiveDate today : JSStr) (hasUntracked : Bool) (ws : Workspace) : Workspace × List JSStr × Except JSStr JSStr :=
  let preCommits := if hasUntracked then [("Pre-start-week backup").data] else []
  let sections := parseMarkdownSections ws.current
  match sections.find? (fun s => s.title == thisWeekTitle),
        sections.find? (fun s => s.title == nextWeekTitle) with
  | some thisWeekSection, some nextWeekSection =>
    let archiveDoc := addWeekToArchive archiveDate thisWeekSection.content ws.archive
    let unfinished := (filterTasksByCompletion thisWeekSection.content).2
    let newThisWeekTasks := unfinished ++ nextWeekSection.content
    ( ⟨rebuildCurrentLines newThisWeekTasks, archiveDoc⟩,
      preCommits ++ [("Completed week transition to ").data ++ today],
      .ok (("Successfully completed week transition. Archived week of ").data
        ++ archiveDate ++ ('.' :: [])) )
  | _, _ => (ws, preCommits, .error missingSectionsMsg)

example :
    filterTasksByCompletion
      [("- [x] A").data, ("- [ ] B").data, ("  d").data]
      = ([("- [x] A").data], [("- [ ] B").data, ("  d").data]) := by decide

example :
    validateTaskMatch (("# S\n- [ ] Write tests\n- [ ] Write docs").data) (("# Backlog").data)
      (("tests").data)
      = .ok ⟨.current, ('S' :: []), ("Write tests").data, 2, false, false⟩ := by decide

/-! ### Specification-level definitions, used to state the claims -/

/-- The section decomposition as the specification words it: a line is a
header exactly when it starts with hash-space; its title is the remainder
trimmed; all lines up to the next header (or the end) form its content;
leading lines before the first header belong to no section. -/
def specSections : List JSStr → List (JSStr × List JSStr)
  | [] => []
  | l :: ls =>
    if isHeaderLine l then
      (titleOfHeader l, ls.takeWhile (fun x => !(isHeaderLine x)))
        :: specSections (ls.dropWhile (fun x => !(isHeaderLine x)))
    else specSections ls
  termination_by ls => ls.length
  decreasing_by
    · have hle : ∀ (l : List JSStr), (l.dropWhile (fun x => !(isHeaderLine x))).length ≤ l.length := by
        intro l
        induction l with
        | nil => simp [List.dropWhile]
        | cons a t ih =>
          rw [List.dropWhile]
          cases (!(isHeaderLine a)) with
          | true => exact Nat.le_succ_of_le ih
          | false => exact Nat.le_refl _
      exact Nat.lt_succ_of_le (hle ls)
    · exact Nat.lt_succ_of_le (Nat.le_refl _)

/-- The description-line predicate as the claim words it: exactly two
leading spaces (the third character is not a space) and not
all-whitespace. -/
def specDescQualifies (line : JSStr) : Bool :=
  jsStartsWith line (' ' :: ' ' :: [])
    && !(jsStartsWith line (' ' :: ' ' :: ' ' :: []))
    && !(jsTrim line).isEmpty

/-! ### Lemmas on the string model -/

theorem dropWhile_length_le {α : Type} (p : α → Bool) (l : List α) :
    (l.dropWhile p).length ≤ l.length := by
  induction l with
  | nil => simp [List.dropWhile]
  | cons a l ih =>
    rw [List.dropWhile]
    cases p a with
    | true => exact Nat.le_succ_of_le ih
    | false => exact Nat.le_refl _

theorem splitLines_ne_nil (s : JSStr) : splitLines s ≠ [] := by
  cases s with
  | nil => simp [splitLines]
  | cons c rest =>
    simp only [splitLines]
    by_cases hc : c = '\n' <;> simp [hc]

theorem splitLines_cons_eq (c : Char) (rest : JSStr) :
    splitLines (c :: rest)
      = if c = '\n' then [] :: splitLines rest
        else (c :: (splitLines rest).headI) :: (splitLines rest).tail := rfl

theorem splitLines_no_newline (s : JSStr) : ∀ l ∈ splitLines s, '\n' ∉ l := by
  induction s with
  | nil => simp [splitLines]
  | cons c rest ih =>
    rw [splitLines_cons_eq]
    obtain ⟨l, ls, hl⟩ : ∃ l ls, splitLines rest = l :: ls := by
      cases h : splitLines rest with
      | nil => exact absurd h (splitLines_ne_nil rest)
      | cons l ls => exact ⟨l, ls, rfl⟩
    rw [hl] at ih ⊢
    by_cases hc : c = '\n'
    · simp only [hc, if_pos rfl]
      intro x hx
      rcases List.mem_cons.mp hx with hx | hx
      · simp [hx]
      · exact ih x hx
    · simp only [if_neg hc, List.headI, List.tail]
      intro x hx
      rcases List.mem_cons.mp hx with hx | hx
      · subst hx
        intro hmem
        rcases List.mem_cons.mp hmem with h1 | h1
        · exact hc h1.symm
        · exact ih l (List.mem_cons_self _ _) h1
      · exact ih x (List.mem_cons_of_mem _ hx)

theorem splitLines_append_newline (a b : JSStr) :
    splitLines (a ++ '\n' :: b) = splitLines a ++ splitLines b := by
  induction a with
  | nil => simp [splitLines]
  | cons c a' ih =>
    rw [List.cons_append, splitLines_cons_eq, ih, splitLines_cons_eq]
    obtain ⟨l, ls, hl⟩ : ∃ l ls, splitLines a' = l :: ls := by
      cases h : splitLines a' with
      | nil => exact absurd h (splitLines_ne_nil a')
      | cons l ls => exact ⟨l, ls, rfl⟩
    rw [hl]
    by_cases hc : c = '\n' <;> simp [hc]

theorem splitLines_of_no_newline (l : JSStr) (h : '\n' ∉ l) : splitLines l = [l] := by
  induction l with
  | nil => simp [splitLines]
  | cons c rest ih =>
    simp only [List.mem_cons, not_or] at h
    simp only [splitLines, ih h.2]
    rw [if_neg (fun hc => h.1 hc.symm)]
    rfl

theorem splitLines_joinLines (L : List JSStr) (hne : L ≠ [])
    (h : ∀ l ∈ L, '\n' ∉ l) : splitLines (joinLines L) = L := by
  induction L with
  | nil => exact absurd rfl hne
  | cons l ls ih =>
    cases ls with
    | nil =>
      simp only [joinLines]
      exact splitLines_of_no_newline l (h l (List.mem_cons_self _ _))
    | cons l2 ls2 =>
      have hjoin : joinLines (l :: l2 :: ls2) = l ++ '\n' :: joinLines (l2 :: ls2) := rfl
      rw [hjoin, splitLines_append_newline,
        splitLines_of_no_newline l (h l (List.mem_cons_self _ _)),
        ih (by simp) (fun x hx => h x (List.mem_cons_of_mem _ hx))]
      rfl

theorem joinLines_append (A B : List JSStr) (hA : A ≠ []) (hB : B ≠ []) :
    joinLines (A ++ B) = joinLines A ++ '\n' :: joinLines B := by
  induction A with
  | nil => exact absurd rfl hA
  | cons a A' ih =>
    cases A' with
    | nil =>
      cases B with
      | nil => exact absurd rfl hB
      | cons b B' => simp [joinLines]
    | cons a2 A2 =>
      have h1 : joinLines ((a :: a2 :: A2) ++ B) = a ++ '\n' :: joinLines ((a2 :: A2) ++ B) := rfl
      have h2 : joinLines (a :: a2 :: A2) = a ++ '\n' :: joinLines (a2 :: A2) := rfl
      rw [h1, h2, ih (by simp)]
      simp

theorem jsTrim_two_spaces (l : JSStr) : jsTrim (' ' :: ' ' :: l) = jsTrim l := by
  simp [jsTrim, List.dropWhile, isJsSpace]

example : specSections [("# A").data, ('x' :: []), ("# B").data]
    = [(('A' :: []), [('x' :: [])]), (('B' :: []), [])] := by
  simp [specSections, isHeaderLine, titleOfHeader, jsStartsWith, jsTrim, List.takeWhile,
    List.dropWhile, isJsSpace]

/-! ### Parser lemmas -/

/-- Forgetting the line ranges of a parsed section. -/
def sectionPair (sec : TaskSection) : JSStr × List JSStr := (sec.title, sec.content)

theorem parseGo_some_map (body : List JSStr) : ∀ (idx : Nat) (t : JSStr) (c : List JSStr) (s : Nat) (acc : List TaskSection),
    (parseGo body idx (some (t, c, s)) acc).map sectionPair
      = acc.map sectionPair
        ++ (t, c ++ body.takeWhile (fun x => !(isHeaderLine x)))
          :: specSections (body.dropWhile (fun x => !(isHeaderLine x))) := by
  induction body with
  | nil =>
    intro idx t c s acc
    simp [parseGo, closeSection, sectionPair, specSections]
  | cons line rest ih =>
    intro idx t c s acc
    by_cases hl : isHeaderLine line
    · rw [parseGo, if_pos hl]
      show (parseGo rest (idx + 1) (some (titleOfHeader line, [], idx))
        (acc ++ [⟨t, c, s, idx - 1⟩])).map sectionPair = _
      rw [ih]
      simp [sectionPair, specSections, hl]
    · rw [parseGo, if_neg hl]
      show (parseGo rest (idx + 1) (some (t, c ++ [line], s)) acc).map sectionPair = _
      rw [ih]
      simp [specSections, hl]

theorem parseGo_none_map (body : List JSStr) : ∀ (idx : Nat) (acc : List TaskSection),
    (parseGo body idx none acc).map sectionPair
      = acc.map sectionPair ++ specSections body := by
  induction body with
  | nil =>
    intro idx acc
    simp [parseGo, closeSection, specSections]
  | cons line rest ih =>
    intro idx acc
    by_cases hl : isHeaderLine line
    · rw [parseGo, if_pos hl]
      show (parseGo rest (idx + 1) (some (titleOfHeader line, [], idx)) acc).map sectionPair = _
      rw [parseGo_some_map]
      simp [specSections, hl]
    · rw [parseGo, if_neg hl]
      show (parseGo rest (idx + 1) none acc).map sectionPair = _
      rw [ih]
      simp [specSections, hl]

/-- Every parsed section lists exactly the titles and contents the
specification-level decomposition assigns, in order. -/
theorem parse_to_spec (content : JSStr) :
    (parseMarkdownSections content).map sectionPair = specSections (splitLines content) := by
  rw [parseMarkdownSections, parseGo_none_map]
  simp

/-- The line-range bookkeeping of a parsed section: the content sits
exactly on lines startLine+1 .. endLine of the document. -/
def sliceOk (L : List JSStr) (sec : TaskSection) : Prop :=
  sec.endLine = sec.startLine + sec.content.length ∧
  sec.startLine + 1 + sec.content.length ≤ L.length ∧
  sec.content = (L.drop (sec.startLine + 1)).take sec.content.length

/-- The invariant carried by the open section while scanning: its content
so far is exactly the slice of the document from startLine+1 up to the
current index. -/
def curOk (L : List JSStr) (idx : Nat) : Option (JSStr × List JSStr × Nat) → Prop
  | none => True
  | some (_, c, s) => s + 1 + c.length = idx ∧ c = (L.drop (s + 1)).take c.length

theorem parseGo_sliceOk (L : List JSStr) : ∀ (rem : List JSStr) (idx : Nat) (cur : Option (JSStr × List JSStr × Nat)) (acc : List TaskSection),
    rem = L.drop idx → idx ≤ L.length → curOk L idx cur →
    (∀ sec ∈ acc, sliceOk L sec) →
    ∀ sec ∈ parseGo rem idx cur acc, sliceOk L sec := by
  intro rem
  induction rem with
  | nil =>
    intro idx cur acc hrem hidx hcur hacc sec hsec
    have hidx2 : L.length ≤ idx := by
      by_contra hlt
      push_neg at hlt
      have hne : L.drop idx ≠ [] := by
        intro hno
        rw [List.drop_eq_nil_iff] at hno
        exact absurd hno (Nat.not_le_of_lt hlt)
      exact hne hrem.symm
    have hidxeq : idx = L.length := Nat.le_antisymm hidx hidx2
    cases cur with
    | none =>
      simp only [parseGo, closeSection] at hsec
      exact hacc sec hsec
    | some tcs =>
      obtain ⟨t, c, s⟩ := tcs
      obtain ⟨hlen, hc⟩ := hcur
      simp only [parseGo, closeSection, List.mem_append, List.mem_singleton] at hsec
      rcases hsec with hsec | hsec
      · exact hacc sec hsec
      · subst hsec
        refine ⟨?_, ?_, hc⟩
        · show idx - 1 = s + c.length
          omega
        · show s + 1 + c.length ≤ L.length
          omega
  | cons line rest ih =>
    intro idx cur acc hrem hidx hcur hacc sec hsec
    have hlt : idx < L.length := by
      by_contra hge
      push_neg at hge
      have hdrop : L.drop idx = [] := List.drop_eq_nil_iff.mpr hge
      rw [hdrop] at hrem
      exact absurd hrem (by simp)
    have hrest : rest = L.drop (idx + 1) := by
      have h1 : (L.drop idx).drop 1 = L.drop (idx + 1) := List.drop_drop 1 idx L
      rw [← hrem] at h1
      simpa using h1
    have hline : L.drop idx = line :: rest := hrem.symm
    by_cases hl : isHeaderLine line
    · rw [parseGo, if_pos hl] at hsec
      refine ih (idx + 1) _ _ hrest (Nat.succ_le_of_lt hlt) ?_ ?_ sec hsec
      · exact ⟨by simp, by simp⟩
      · cases cur with
        | none => exact hacc
        | some tcs =>
          obtain ⟨t, c, s⟩ := tcs
          obtain ⟨hlen, hc⟩ := hcur
          intro sec2 hsec2
          simp only [closeSection, List.mem_append, List.mem_singleton] at hsec2
          rcases hsec2 with h2 | h2
          · exact hacc sec2 h2
          · subst h2
            refine ⟨?_, ?_, hc⟩
            · show idx - 1 = s + c.length
              omega
            · show s + 1 + c.length ≤ L.length
              omega
    · rw [parseGo, if_neg hl] at hsec
      cases cur with
      | none =>
        exact ih (idx + 1) none acc hrest (Nat.succ_le_of_lt hlt) trivial hacc sec hsec
      | some tcs =>
        obtain ⟨t, c, s⟩ := tcs
        obtain ⟨hlen, hc⟩ := hcur
        refine ih (idx + 1) _ _ hrest (Nat.succ_le_of_lt hlt) ?_ hacc sec hsec
        have hdropc : (L.drop (s + 1)).drop c.length = L.drop idx := by
          rw [List.drop_drop]
          congr 1
        have hget : (L.drop (s + 1))[c.length]? = some line := by
          rw [List.getElem?_drop, hlen, ← List.head?_drop, hline]
          rfl
        have htake : (L.drop (s + 1)).take (c.length + 1)
            = (L.drop (s + 1)).take c.length ++ [line] := by
          rw [List.take_succ, hget]
          rfl
        constructor
        · show s + 1 + (c ++ [line]).length = idx + 1
          simp only [List.length_append, List.length_cons, List.length_nil]
          omega
        · show c ++ [line] = (L.drop (s + 1)).take (c ++ [line]).length
          simp only [List.length_append, List.length_cons, List.length_nil]
          rw [htake, ← hc]

/-- Every section returned by the parser satisfies the slice invariant
with respect to the document's line list. -/
theorem parse_sliceOk (content : JSStr) :
    ∀ sec ∈ parseMarkdownSections content, sliceOk (splitLines content) sec := by
  intro sec hsec
  refine parseGo_sliceOk (splitLines content) (splitLines content) 0 none [] ?_ ?_ trivial ?_ sec hsec
  · simp
  · exact Nat.zero_le _
  · intro s hs
    exact absurd hs (List.not_mem_nil s)

/-- Reconstruction of the document from a section's line ranges. -/
theorem sliceOk_reconstruct (L : List JSStr) (sec : TaskSection) (h : sliceOk L sec) :
    L = L.take (sec.startLine + 1) ++ sec.content ++ L.drop (sec.endLine + 1) := by
  obtain ⟨he, hle, hc⟩ := h
  have h1 : L = L.take (sec.startLine + 1) ++ L.drop (sec.startLine + 1) :=
    (List.take_append_drop _ _).symm
  have h2 : L.drop (sec.startLine + 1)
      = (L.drop (sec.startLine + 1)).take sec.content.length
        ++ (L.drop (sec.startLine + 1)).drop sec.content.length :=
    (List.take_append_drop _ _).symm
  have h3 : (L.drop (sec.startLine + 1)).drop sec.content.length
      = L.drop (sec.endLine + 1) := by
    rw [List.drop_drop]
    congr 1
    omega
  rw [List.append_assoc]
  nth_rewrite 1 [h1]
  rw [← hc] at h2
  rw [← h3]
  rw [← h2]

/-- Content lines of a parsed section are lines of the document. -/
theorem sliceOk_content_mem (L : List JSStr) (sec : TaskSection) (h : sliceOk L sec) :
    ∀ l ∈ sec.content, l ∈ L := by
  intro l hl
  rw [h.2.2] at hl
  exact List.drop_subset _ _ (List.take_subset _ _ hl)

/-! ### takeWhile and dropWhile helpers -/

theorem takeWhile_all {α : Type} (p : α → Bool) (l : List α) (h : ∀ a ∈ l, p a = true) :
    l.takeWhile p = l := by
  induction l with
  | nil => rfl
  | cons a t ih =>
    have ha := h a (List.mem_cons_self _ _)
    have ht := ih (fun x hx => h x (List.mem_cons_of_mem _ hx))
    simp [List.takeWhile_cons, ha, ht]

theorem dropWhile_all {α : Type} (p : α → Bool) (l : List α) (h : ∀ a ∈ l, p a = true) :
    l.dropWhile p = [] := by
  induction l with
  | nil => rfl
  | cons a t ih =>
    have ha := h a (List.mem_cons_self _ _)
    have ht := ih (fun x hx => h x (List.mem_cons_of_mem _ hx))
    simp [List.dropWhile_cons, ha, ht]

theorem takeWhile_append_all {α : Type} (p : α → Bool) (l1 l2 : List α)
    (h : ∀ a ∈ l1, p a = true) :
    (l1 ++ l2).takeWhile p = l1 ++ l2.takeWhile p := by
  induction l1 with
  | nil => rfl
  | cons a t ih =>
    have ha := h a (List.mem_cons_self _ _)
    have ht := ih (fun x hx => h x (List.mem_cons_of_mem _ hx))
    simp [List.takeWhile_cons, ha, ht]

theorem dropWhile_append_all {α : Type} (p : α → Bool) (l1 l2 : List α)
    (h : ∀ a ∈ l1, p a = true) :
    (l1 ++ l2).dropWhile p = l2.dropWhile p := by
  induction l1 with
  | nil => rfl
  | cons a t ih =>
    have ha := h a (List.mem_cons_self _ _)
    have ht := ih (fun x hx => h x (List.mem_cons_of_mem _ hx))
    simp [List.dropWhile_cons, ha, ht]

theorem takeWhile_cons_false {α : Type} (p : α → Bool) (a : α) (l : List α)
    (h : p a = false) : (a :: l).takeWhile p = [] := by
  rw [List.takeWhile_cons, h]
  rfl

theorem dropWhile_cons_false {α : Type} (p : α → Bool) (a : α) (l : List α)
    (h : p a = false) : (a :: l).dropWhile p = a :: l := by
  rw [List.dropWhile_cons, h]
  rfl

theorem takeWhile_mem_sat {α : Type} (p : α → Bool) (l : List α) :
    ∀ a ∈ l.takeWhile p, p a = true := by
  induction l with
  | nil => simp
  | cons a t ih =>
    rw [List.takeWhile_cons]
    by_cases hp : p a = true
    · rw [if_pos hp]
      intro x hx
      rcases List.mem_cons.mp hx with hx | hx
      · rw [hx]; exact hp
      · exact ih x hx
    · rw [if_neg hp]
      intro x hx
      exact absurd hx (List.not_mem_nil x)

theorem dropWhile_head_false {α : Type} (p : α → Bool) (l : List α) (b : α) (B : List α)
    (h : l.dropWhile p = b :: B) : p b = false := by
  induction l with
  | nil => simp [List.dropWhile] at h
  | cons a t ih =>
    rw [List.dropWhile_cons] at h
    by_cases hp : p a = true
    · rw [if_pos hp] at h
      exact ih h
    · rw [if_neg hp] at h
      injection h with h1 _
      rw [← h1]
      exact Bool.not_eq_true _ ▸ (by simpa using hp)

/-! ### specSections composition lemmas -/

theorem specSections_content_no_header :
    ∀ (n : Nat) (ls : List JSStr), ls.length ≤ n →
      ∀ t c, (t, c) ∈ specSections ls → ∀ l ∈ c, isHeaderLine l = false := by
  intro n
  induction n with
  | zero =>
    intro ls hn t c hmem
    have : ls = [] := List.length_eq_zero.mp (Nat.le_zero.mp hn)
    subst this
    simp [specSections] at hmem
  | succ n ih =>
    intro ls hn t c hmem l hl
    cases ls with
    | nil => simp [specSections] at hmem
    | cons x ls' =>
      by_cases hx : isHeaderLine x
      · rw [specSections, if_pos hx] at hmem
        rcases List.mem_cons.mp hmem with hmem | hmem
        · injection hmem with h1 h2
          subst h2
          have := takeWhile_mem_sat (fun y => !(isHeaderLine y)) ls' l hl
          simpa using this
        · have hlen : (ls'.dropWhile (fun y => !(isHeaderLine y))).length ≤ n := by
            have := dropWhile_length_le (fun y => !(isHeaderLine y)) ls'
            simp only [List.length_cons] at hn
            omega
          exact ih _ hlen t c hmem l hl
      · rw [specSections, if_neg hx] at hmem
        have hlen : ls'.length ≤ n := by
          simp only [List.length_cons] at hn
          omega
        exact ih _ hlen t c hmem l hl

/-- Every line in a parsed section's content fails the header test. -/
theorem parse_content_no_header (content : JSStr) :
    ∀ sec ∈ parseMarkdownSections content, ∀ l ∈ sec.content, isHeaderLine l = false := by
  intro sec hsec
  have hpair : sectionPair sec ∈ (parseMarkdownSections content).map sectionPair :=
    List.mem_map_of_mem sectionPair hsec
  rw [parse_to_spec] at hpair
  exact specSections_content_no_header (splitLines content).length _ (Nat.le_refl _)
    sec.title sec.content hpair

/-- Appending a fresh header and header-free body to any line list adds
exactly one section at the end of the decomposition. -/
theorem specSections_append_header (h : JSStr) (body : List JSStr)
    (hh : isHeaderLine h = true) (hb : ∀ b ∈ body, isHeaderLine b = false) :
    ∀ ls : List JSStr, specSections (ls ++ h :: body)
      = specSections ls ++ [(titleOfHeader h, body)] := by
  have base : specSections (h :: body) = [(titleOfHeader h, body)] := by
    rw [specSections, if_pos hh]
    rw [takeWhile_all _ body (fun b hbm => by simp [hb b hbm])]
    rw [dropWhile_all _ body (fun b hbm => by simp [hb b hbm])]
    simp [specSections]
  suffices H : ∀ (n : Nat) (ls : List JSStr), ls.length ≤ n →
      specSections (ls ++ h :: body) = specSections ls ++ [(titleOfHeader h, body)] by
    exact fun ls => H ls.length ls (Nat.le_refl _)
  intro n
  induction n with
  | zero =>
    intro ls hn
    have : ls = [] := List.length_eq_zero.mp (Nat.le_zero.mp hn)
    subst this
    simpa [specSections] using base
  | succ n ih =>
    intro ls hn
    cases ls with
    | nil => simpa [specSections] using base
    | cons x ls' =>
      simp only [List.length_cons] at hn
      by_cases hx : isHeaderLine x
      · rw [List.cons_append, specSections, if_pos hx, specSections, if_pos hx]
        set nh := fun y => !(isHeaderLine y) with hnh
        have hsplit : ls' = ls'.takeWhile nh ++ ls'.dropWhile nh :=
          (List.takeWhile_append_dropWhile ..).symm
        have htakeall : ∀ a ∈ ls'.takeWhile nh, nh a = true := takeWhile_mem_sat nh ls'
        have htw : (ls' ++ h :: body).takeWhile nh = ls'.takeWhile nh := by
          conv_lhs => rw [hsplit]
          rw [List.append_assoc, takeWhile_append_all nh _ _ htakeall]
          cases hB : ls'.dropWhile nh with
          | nil =>
            simp only [List.nil_append]
            rw [takeWhile_cons_false nh h _ (by simp [hnh, hh])]
            simp
          | cons b B' =>
            have hbfalse : nh b = false := dropWhile_head_false nh ls' b B' hB
            rw [List.cons_append, takeWhile_cons_false nh b _ hbfalse]
            simp
        have hdw : (ls' ++ h :: body).dropWhile nh
            = ls'.dropWhile nh ++ h :: body := by
          conv_lhs => rw [hsplit]
          rw [List.append_assoc, dropWhile_append_all nh _ _ htakeall]
          cases hB : ls'.dropWhile nh with
          | nil =>
            simp only [List.nil_append]
            exact dropWhile_cons_false nh h _ (by simp [hnh, hh])
          | cons b B' =>
            have hbfalse : nh b = false := dropWhile_head_false nh ls' b B' hB
            rw [List.cons_append, dropWhile_cons_false nh b _ hbfalse]
        rw [htw, hdw]
        cases hB : ls'.dropWhile nh with
        | nil =>
          simp only [List.nil_append]
          rw [base]
          simp [specSections]
        | cons b B' =>
          have hlenB : (b :: B').length ≤ n := by
            have hd := dropWhile_length_le nh ls'
            rw [hB] at hd
            simp only [List.length_cons] at hd ⊢
            omega
          rw [ih _ hlenB]
          simp
      · rw [List.cons_append, specSections, if_neg hx, specSections, if_neg hx]
        exact ih ls' (by omega)

/-! ### Decomposition of the rollover partition into task blocks -/

/-- One item recognized by the partition scan: either a task line together
with the description run the shared scanner identifies and its finished
flag, or a blank line. -/
inductive ScanItem where
  | task (line : JSStr) (descs : List JSStr) (finished : Bool)
  | blank (line : JSStr)
  deriving DecidableEq, Repr

/-- The scan of the partition loop, reified as a list of items; unrecognized
non-blank lines are dropped, and the lines of a task's description run are
consumed together with their task. -/
def scanItemsGo : Nat → List JSStr → List ScanItem
  | 0, _ => []
  | _ + 1, [] => []
  | fuel + 1, line :: rest =>
    match taskHeadChar line with
    | some c =>
      let descs := getTaskDescriptionLines (line :: rest) 1
      .task line descs (isFinishedStatus (parseStatusChar c))
        :: scanItemsGo fuel (rest.drop descs.length)
    | none =>
      if (jsTrim line).isEmpty then .blank line :: scanItemsGo fuel rest
      else scanItemsGo fuel rest

/-- The items of a section's lines. -/
def scanItems (ls : List JSStr) : List ScanItem := scanItemsGo ls.length ls

/-- The lines the finished bucket receives: for each finished task item its
task line immediately followed by its description lines; nothing else. -/
def finishedLines : List ScanItem → List JSStr
  | [] => []
  | .task l d true :: rest => l :: d ++ finishedLines rest
  | .task _ _ false :: rest => finishedLines rest
  | .blank _ :: rest => finishedLines rest

/-- The lines the unfinished bucket receives, given what it already holds:
for each unfinished task item its task line immediately followed by its
description lines; a blank line is kept only once the bucket is
non-empty. -/
def unfinishedAfter : List JSStr → List ScanItem → List JSStr
  | acc, [] => acc
  | acc, .task l d false :: rest => unfinishedAfter (acc ++ l :: d) rest
  | acc, .task _ _ true :: rest => unfinishedAfter acc rest
  | acc, .blank b :: rest => unfinishedAfter (if acc.length > 0 then acc ++ [b] else acc) rest

theorem filterGo_decomp : ∀ (fuel : Nat) (ls fin unfin : List JSStr),
    filterGo fuel ls fin unfin
      = (fin ++ finishedLines (scanItemsGo fuel ls),
         unfinishedAfter unfin (scanItemsGo fuel ls)) := by
  intro fuel
  induction fuel with
  | zero =>
    intro ls fin unfin
    simp [filterGo, scanItemsGo, finishedLines, unfinishedAfter]
  | succ fuel ih =>
    intro ls fin unfin
    cases ls with
    | nil => simp [filterGo, scanItemsGo, finishedLines, unfinishedAfter]
    | cons line rest =>
      rw [filterGo, scanItemsGo]
      cases htc : taskHeadChar line with
      | some c =>
        simp only
        by_cases hf : isFinishedStatus (parseStatusChar c)
        · simp [hf, ih, finishedLines, unfinishedAfter]
        · have hf' : isFinishedStatus (parseStatusChar c) = false := by simpa using hf
          simp [hf', ih, finishedLines, unfinishedAfter]
      | none =>
        simp only
        by_cases hbl : (jsTrim line).isEmpty
        · have hbl' : (jsTrim line).isEmpty = true := hbl
          simp [hbl', ih, finishedLines, unfinishedAfter]
        · have hbl' : (jsTrim line).isEmpty = false := by simpa using hbl
          simp [hbl', ih]

/-- The partition equals the per-item assembly of its scan. -/
theorem filter_decomp (ls : List JSStr) :
    filterTasksByCompletion ls
      = (finishedLines (scanItems ls), unfinishedAfter [] (scanItems ls)) := by
  rw [filterTasksByCompletion, filterGo_decomp]
  rfl

/-! ### Remaining small helpers -/

theorem specSections_no_header_nil (ls : List JSStr)
    (h : ∀ l ∈ ls, isHeaderLine l = false) : specSections ls = [] := by
  induction ls with
  | nil => simp [specSections]
  | cons x ls' ih =>
    rw [specSections, if_neg (by simp [h x (List.mem_cons_self _ _)])]
    exact ih (fun l hl => h l (List.mem_cons_of_mem _ hl))

theorem lineNotFoundMsg_ne_noTaskMsg (n : Nat) : lineNotFoundMsg n ≠ noTaskMsg n := by
  intro h
  have h1 : (lineNotFoundMsg n).head? = some 'L' := rfl
  have h2 : (noTaskMsg n).head? = some 'N' := rfl
  rw [h, h2] at h1
  injection h1 with h3
  exact absurd h3 (by decide)

theorem checkboxSplit_shape (l : JSStr) (c0 : Char) (rest : JSStr)
    (h : checkboxSplit l = some (c0, rest)) :
    l = '-' :: ' ' :: '[' :: c0 :: ']' :: rest := by
  unfold checkboxSplit at h
  split at h
  · split at h
    · simp only [Option.some.injEq, Prod.mk.injEq] at h
      obtain ⟨rfl, rfl⟩ := h
      rfl
    · simp at h
  · simp at h

theorem takeWhile_isPrefixOf {α : Type} (p : α → Bool) (l : List α) :
    l.takeWhile p <+: l :=
  ⟨l.dropWhile p, List.takeWhile_append_dropWhile ..⟩

/-! ### Claim theorems -/

/-- C3: the rollover partition places each recognized task line in exactly
one of the finished bucket (status character x or dash) or the unfinished
bucket (status character space), never both and never neither, with the
contiguous description run the shared scanner identifies immediately after
its parent task line in the same bucket: the partition equals the per-item
assembly of the scan, and per task item the finished assembly contributes
the task line followed by its description lines exactly when the item is
finished (and nothing otherwise), while the unfinished assembly does the
opposite. -/
theorem claim_C3_partition (sectionContent : List JSStr) :
    filterTasksByCompletion sectionContent
      = (finishedLines (scanItems sectionContent),
         unfinishedAfter [] (scanItems sectionContent))
    ∧ (∀ (l : JSStr) (d : List JSStr) (items : List ScanItem),
        finishedLines (ScanItem.task l d true :: items) = l :: d ++ finishedLines items
          ∧ finishedLines (ScanItem.task l d false :: items) = finishedLines items)
    ∧ (∀ (l : JSStr) (d : List JSStr) (acc : List JSStr) (items : List ScanItem),
        unfinishedAfter acc (ScanItem.task l d false :: items)
            = unfinishedAfter (acc ++ l :: d) items
          ∧ unfinishedAfter acc (ScanItem.task l d true :: items)
            = unfinishedAfter acc items) :=
  ⟨filter_decomp sectionContent,
   fun _ _ _ => ⟨rfl, rfl⟩,
   fun _ _ _ _ => ⟨rfl, rfl⟩⟩

/-- C8: parseMarkdownSections splits on newline and yields the sections in
document order, opening a section exactly at lines starting with
hash-space, titling it with the trimmed remainder, giving it all following
lines verbatim up to the next header or the end, dropping lines before the
first header; a text with no header lines, and in particular the empty
text, yields zero sections. -/
theorem claim_C8_parse (content : JSStr) :
    (parseMarkdownSections content).map sectionPair = specSections (splitLines content)
  ∧ parseMarkdownSections [] = []
  ∧ ((∀ l ∈ splitLines content, isHeaderLine l = false) → parseMarkdownSections content = []) := by
  refine ⟨parse_to_spec content, by decide, ?_⟩
  intro h
  have h1 := parse_to_spec content
  rw [specSections_no_header_nil _ h] at h1
  exact List.map_eq_nil_iff.mp h1

/-- Witness for C8 at a concrete header-free text. -/
theorem claim_C8_parse_witness :
    (∀ l ∈ splitLines (("x\ny").data), isHeaderLine l = false)
      ∧ parseMarkdownSections (("x\ny").data) = [] :=
  ⟨by decide, (claim_C8_parse (("x\ny").data)).2.2 (by decide)⟩

/-- C7 counterexample: a line indented by four spaces is accepted by the
description scanner, although the claim's exactly-two-spaces predicate
rejects it, so the scanner is not the maximal run of that predicate. -/
theorem claim_C7_counterexample :
    getTaskDescriptionLines [("    x").data] 0 = [("    x").data]
  ∧ specDescQualifies (("    x").data) = false
  ∧ getTaskDescriptionLines [("    x").data] 0
      ≠ ([("    x").data].takeWhile specDescQualifies) := by decide

/-- C7 (amended: a description line begins with at least two leading
spaces, not exactly two): the scanner returns the maximal contiguous run of
lines from the start index in which each line starts with two spaces and is
not all-whitespace, stopping at the first line failing either condition or
at the end. -/
theorem claim_C7_descScan (lines : List JSStr) (startIndex : Nat) :
    getTaskDescriptionLines lines startIndex <+: lines.drop startIndex
  ∧ (∀ l ∈ getTaskDescriptionLines lines startIndex,
      jsStartsWith l (' ' :: ' ' :: []) = true ∧ jsTrim l ≠ [])
  ∧ (∀ l rest2,
      lines.drop (startIndex + (getTaskDescriptionLines lines startIndex).length)
          = l :: rest2 →
        (jsStartsWith l (' ' :: ' ' :: []) && !(jsTrim l).isEmpty) = false) := by
  refine ⟨takeWhile_isPrefixOf _ _, ?_, ?_⟩
  · intro l hl
    have hq := takeWhile_mem_sat descQualifies _ l hl
    rw [descQualifies] at hq
    obtain ⟨h1, h2⟩ := Bool.and_eq_true _ _ |>.mp hq
    refine ⟨h1, ?_⟩
    intro hnil
    rw [hnil] at h2
    simp at h2
  · intro l rest2 hdrop
    have hdecomp : lines.drop startIndex
        = (lines.drop startIndex).takeWhile descQualifies
          ++ (lines.drop startIndex).dropWhile descQualifies :=
      (List.takeWhile_append_dropWhile ..).symm
    have hlen : ((lines.drop startIndex).takeWhile descQualifies).length
        = (getTaskDescriptionLines lines startIndex).length := rfl
    have hsplit : lines.drop (startIndex + (getTaskDescriptionLines lines startIndex).length)
        = (lines.drop startIndex).dropWhile descQualifies := by
      rw [← List.drop_drop]
      conv_lhs => rw [hdecomp]
      exact List.drop_left' hlen
    rw [hsplit] at hdrop
    have hb := dropWhile_head_false descQualifies _ l rest2 hdrop
    rw [descQualifies] at hb
    exact hb

/-- Witness for C7 at a concrete list where the run stops at a blank line. -/
theorem claim_C7_descScan_witness :
    (([("- [ ] t").data, ("  a").data, [], ("  b").data] : List JSStr).drop
        (1 + (getTaskDescriptionLines [("- [ ] t").data, ("  a").data, [], ("  b").data] 1).length)
      = [] :: [("  b").data])
  ∧ (jsStartsWith [] (' ' :: ' ' :: []) && !(jsTrim ([] : JSStr)).isEmpty) = false :=
  ⟨by decide,
   (claim_C7_descScan [("- [ ] t").data, ("  a").data, [], ("  b").data] 1).2.2
     [] [("  b").data] (by decide)⟩

/-- C9: a 1-based line number inside the document that addresses an empty
line makes all four line-addressed mutators fail with the LineNotFound
message rather than NotATask, because the existence check treats the empty
string as a missing line; LineNotFound is therefore not the same as the
line number exceeding the document length. -/
theorem claim_C9_emptyLine (content : JSStr) (n : Nat) (st : TaskStatus)
    (newText : JSStr) (newDesc : Option JSStr)
    (h : lineAt (splitLines content) n = some []) :
    updateTaskStatus content n st = .error (lineNotFoundMsg n)
  ∧ updateTaskText content n newText = .error (lineNotFoundMsg n)
  ∧ updateTaskDescription content n newDesc = .error (lineNotFoundMsg n)
  ∧ removeTask content n = .error (lineNotFoundMsg n) := by
  refine ⟨?_, ?_, ?_, ?_⟩
  · simp [updateTaskStatus, h]
  · simp [updateTaskText, h]
  · simp [updateTaskDescription, h]
  · simp [removeTask, h]

/-- C4 counterexample: a line that has the full task shape, trailing space
included, is reported as NotATask by updateTaskStatus when it already
carries the requested status character, instead of being returned with the
bracket character replaced (unchanged). -/
theorem claim_C4_counterexample :
    taskHeadChar (("- [x] a").data) = some 'x'
  ∧ updateTaskStatus (("- [x] a").data) 1 .completed = .error (noTaskMsg 1) := by decide

/-- C4 (amended): updateTaskStatus fails with LineNotFound exactly when the
addressed line is absent (line number zero or past the end) or empty; it
fails with NotATask exactly when the addressed line exists, is non-empty,
and either lacks the five-character checkbox head (no trailing space
required) or already carries the requested status character; otherwise the
line has the checkbox shape and only its bracket character is replaced,
every other character and line untouched. -/
theorem claim_C4_updateStatus (content : JSStr) (n : Nat) (st : TaskStatus) :
    (updateTaskStatus content n st = .error (lineNotFoundMsg n)
        ↔ (lineAt (splitLines content) n = none ∨ lineAt (splitLines content) n = some []))
  ∧ (updateTaskStatus content n st = .error (noTaskMsg n)
        ↔ ∃ l, lineAt (splitLines content) n = some l ∧ l ≠ []
            ∧ (checkboxSplit l = none
                ∨ ∃ rest, checkboxSplit l = some (getStatusChar st, rest)))
  ∧ (∀ l c0 rest, lineAt (splitLines content) n = some l
        → checkboxSplit l = some (c0, rest) → c0 ≠ getStatusChar st
        → l = '-' :: ' ' :: '[' :: c0 :: ']' :: rest
          ∧ updateTaskStatus content n st
            = .ok (joinLines ((splitLines content).set (n - 1)
                ('-' :: ' ' :: '[' :: getStatusChar st :: ']' :: rest)))) := by
  have hmsg := lineNotFoundMsg_ne_noTaskMsg n
  cases hA : lineAt (splitLines content) n with
  | none =>
    have hrun : updateTaskStatus content n st = .error (lineNotFoundMsg n) := by
      simp [updateTaskStatus, hA]
    refine ⟨⟨fun _ => Or.inl rfl, fun _ => hrun⟩, ⟨?_, ?_⟩, ?_⟩
    · intro h
      rw [hrun] at h
      injection h with h2
      exact absurd h2 hmsg
    · rintro ⟨l, hl, _, _⟩
      cases hl
    · intro l c0 rest h1 _ _
      cases h1
  | some l =>
    by_cases hl : l = []
    · subst hl
      have hrun : updateTaskStatus content n st = .error (lineNotFoundMsg n) := by
        simp [updateTaskStatus, hA]
      refine ⟨⟨fun _ => Or.inr rfl, fun _ => hrun⟩, ⟨?_, ?_⟩, ?_⟩
      · intro h
        rw [hrun] at h
        injection h with h2
        exact absurd h2 hmsg
      · rintro ⟨l', hl', hne, _⟩
        injection hl' with h3
        exact absurd h3.symm hne
      · intro l' c0 rest h1 h2 _
        injection h1 with h4
        rw [← h4] at h2
        simp [checkboxSplit] at h2
    · cases hS : checkboxSplit l with
      | none =>
        have hrun : updateTaskStatus content n st = .error (noTaskMsg n) := by
          simp [updateTaskStatus, hA, hl, hS]
        refine ⟨⟨?_, ?_⟩, ⟨fun _ => ⟨l, rfl, hl, Or.inl hS⟩, fun _ => hrun⟩, ?_⟩
        · intro h
          rw [hrun] at h
          injection h with h2
          exact absurd h2.symm hmsg
        · rintro (h | h)
          · cases h
          · injection h with h3
            exact absurd h3 hl
        · intro l' c0 rest h1 h2 _
          injection h1 with h4
          rw [← h4, hS] at h2
          cases h2
      | some pair =>
        obtain ⟨c0', rest'⟩ := pair
        have hshape := checkboxSplit_shape l c0' rest' hS
        by_cases hceq : c0' = getStatusChar st
        · have hupd : ('-' :: ' ' :: '[' :: getStatusChar st :: ']' :: rest') = l := by
            rw [hshape, hceq]
          have hrun : updateTaskStatus content n st = .error (noTaskMsg n) := by
            simp [updateTaskStatus, hA, hl, hS, hupd]
          refine ⟨⟨?_, ?_⟩, ⟨?_, fun _ => hrun⟩, ?_⟩
          · intro h
            rw [hrun] at h
            injection h with h2
            exact absurd h2.symm hmsg
          · rintro (h | h)
            · cases h
            · injection h with h3
              exact absurd h3 hl
          · intro _
            refine ⟨l, rfl, hl, Or.inr ⟨rest', ?_⟩⟩
            rw [← hceq]
            exact hS
          · intro l' c0 rest h1 h2 h3
            injection h1 with h4
            rw [← h4, hS] at h2
            injection h2 with h5
            obtain ⟨h6, _⟩ := Prod.mk.injEq .. ▸ h5
            exact absurd (by rw [← h6]; exact hceq) h3
        · have hgne : getStatusChar st ≠ c0' := fun h => hceq h.symm
          have hne2 : ('-' :: ' ' :: '[' :: getStatusChar st :: ']' :: rest') ≠ l := by
            rw [hshape]
            simp [hgne]
          have hrun : updateTaskStatus content n st
              = .ok (joinLines ((splitLines content).set (n - 1)
                  ('-' :: ' ' :: '[' :: getStatusChar st :: ']' :: rest'))) := by
            simp [updateTaskStatus, hA, hl, hS, hne2]
          refine ⟨⟨?_, ?_⟩, ⟨?_, ?_⟩, ?_⟩
          · intro h
            rw [hrun] at h
            cases h
          · rintro (h | h)
            · cases h
            · injection h with h3
              exact absurd h3 hl
          · intro h
            rw [hrun] at h
            cases h
          · rintro ⟨l', h1, _, hsp⟩
            injection h1 with h4
            rcases hsp with h5 | ⟨rest2, h5⟩
            · rw [← h4, hS] at h5
              cases h5
            · rw [← h4, hS] at h5
              injection h5 with h6
              obtain ⟨h7, _⟩ := Prod.mk.injEq .. ▸ h6
              exact absurd h7 hceq
          · intro l' c0 rest h1 h2 _
            injection h1 with h4
            rw [← h4, hS] at h2
            injection h2 with h5
            obtain ⟨h6, h7⟩ := Prod.mk.injEq .. ▸ h5
            subst h6
            subst h7
            exact ⟨by rw [← h4, hshape], hrun⟩

/-- Witness for C4 on a plain new task line being completed. -/
theorem claim_C4_updateStatus_witness :
    updateTaskStatus (("- [ ] A").data) 1 .completed
      = .ok (joinLines ((splitLines (("- [ ] A").data)).set 0
          ('-' :: ' ' :: '[' :: getStatusChar .completed :: ']' :: (' ' :: 'A' :: [])))) :=
  ((claim_C4_updateStatus (("- [ ] A").data) 1 .completed).2.2
    (("- [ ] A").data) ' ' (' ' :: 'A' :: []) (by decide) (by decide) (by decide)).2

theorem splice_normalize (lines : List JSStr) (n k : Nat) (block : List JSStr)
    (hn : n ≤ lines.length) :
    ((lines.take n ++ lines.drop (n + k)).take n)
        ++ block ++ ((lines.take n ++ lines.drop (n + k)).drop n)
      = lines.take n ++ block ++ lines.drop (n + k) := by
  have hlen : (lines.take n).length = n := by
    rw [List.length_take]
    omega
  rw [List.take_left' hlen, List.drop_left' hlen]

/-- The bound and positivity extracted from a successful line lookup. -/
theorem lineAt_some_bounds (lines : List JSStr) (n : Nat) (l : JSStr)
    (h : lineAt lines n = some l) : 1 ≤ n ∧ n ≤ lines.length := by
  rw [lineAt] at h
  by_cases hn : n = 0
  · rw [if_pos hn] at h
    cases h
  · rw [if_neg hn] at h
    have hlt : n - 1 < lines.length := by
      by_contra hge
      push_neg at hge
      rw [List.get?_eq_none.mpr hge] at h
      cases h
    omega

/-- C10: updateTaskDescription never raises NotATask: its only error is
LineNotFound (absent or empty addressed line); on any non-empty line at a
valid line number — a task line or not — it deletes the contiguous
indented block after the line and, when the new description is non-null and
not whitespace-only, inserts the fresh 2-space-indented block immediately
after it. -/
theorem claim_C10_updateDescription (content : JSStr) (n : Nat) (newDesc : Option JSStr) :
    (∀ e, updateTaskDescription content n newDesc = .error e → e = lineNotFoundMsg n)
  ∧ ((updateTaskDescription content n newDesc).isOk = true
        ↔ ∃ l, lineAt (splitLines content) n = some l ∧ l ≠ [])
  ∧ (∀ l, lineAt (splitLines content) n = some l → l ≠ [] →
      updateTaskDescription content n newDesc
        = .ok (joinLines ((splitLines content).take n
            ++ (match newDesc with
                | some d =>
                  if jsTrim d ≠ [] then (splitLines d).map (fun x => ' ' :: ' ' :: x) else []
                | none => [])
            ++ (splitLines content).drop
                (n + (getTaskDescriptionLines (splitLines content) n).length)))) := by
  cases hA : lineAt (splitLines content) n with
  | none =>
    have hrun : updateTaskDescription content n newDesc = .error (lineNotFoundMsg n) := by
      simp [updateTaskDescription, hA]
    refine ⟨?_, ?_, ?_⟩
    · intro e h
      rw [hrun] at h
      injection h with h2
      exact h2.symm
    · rw [hrun]
      constructor
      · intro h
        simp [Except.isOk, Except.toBool] at h
      · rintro ⟨l', h1, _⟩
        cases h1
    · intro l h1
      cases h1
  | some l =>
    by_cases hl : l = []
    · subst hl
      have hrun : updateTaskDescription content n newDesc = .error (lineNotFoundMsg n) := by
        simp [updateTaskDescription, hA]
      refine ⟨?_, ?_, ?_⟩
      · intro e h
        rw [hrun] at h
        injection h with h2
        exact h2.symm
      · rw [hrun]
        simp only [Except.isOk, Except.toBool]
        constructor
        · intro h
          cases h
        · rintro ⟨l', h1, hne⟩
          injection h1 with h3
          exact absurd h3.symm hne
      · intro l' h1 h2
        injection h1 with h3
        exact absurd h3.symm h2
    · obtain ⟨hn1, hn2⟩ := lineAt_some_bounds _ _ _ hA
      have hidx : n - 1 + (getTaskDescriptionLines (splitLines content) n).length + 1
          = n + (getTaskDescriptionLines (splitLines content) n).length := by
        omega
      have hrun : updateTaskDescription content n newDesc
          = .ok (joinLines ((splitLines content).take n
              ++ (match newDesc with
                  | some d =>
                    if jsTrim d ≠ [] then (splitLines d).map (fun x => ' ' :: ' ' :: x) else []
                  | none => [])
              ++ (splitLines content).drop
                  (n + (getTaskDescriptionLines (splitLines content) n).length))) := by
        cases newDesc with
        | none =>
          simp only [updateTaskDescription, hA, hl, if_neg hl]
          rw [hidx]
          simp
        | some d =>
          by_cases hd : jsTrim d = []
          · simp only [updateTaskDescription, hA, hl, if_neg hl, hd]
            rw [hidx]
            simp
          · have hd' : jsTrim d ≠ [] := hd
            simp only [updateTaskDescription, hA, hl, if_neg hl]
            rw [hidx]
            rw [if_pos hd', if_pos hd']
            rw [splice_normalize _ _ _ _ hn2]
            simp
      refine ⟨?_, ?_, ?_⟩
      · intro e h
        rw [hrun] at h
        cases h
      · rw [hrun]
        simp only [Except.isOk, Except.toBool]
        exact ⟨fun _ => ⟨l, rfl, hl⟩, fun _ => by simp⟩
      · intro l' h1 _
        exact hrun

/-- Witness for C10: a section header line, which is not a task line, still
gets a description inserted after it. -/
theorem claim_C10_updateDescription_witness :
    updateTaskDescription (("# A\n- [ ] t").data) 1 (some ('d' :: []))
      = .ok (joinLines ((splitLines (("# A\n- [ ] t").data)).take 1
          ++ (match (some ('d' :: []) : Option JSStr) with
              | some d =>
                if jsTrim d ≠ [] then (splitLines d).map (fun x => ' ' :: ' ' :: x) else []
              | none => [])
          ++ (splitLines (("# A\n- [ ] t").data)).drop
              (1 + (getTaskDescriptionLines (splitLines (("# A\n- [ ] t").data)) 1).length))) :=
  (claim_C10_updateDescription (("# A\n- [ ] t").data) 1 (some ('d' :: []))).2.2
    (("# A").data) (by decide) (by decide)

/-- C5: over the case-insensitive substring matches drawn from current then
backlog, the disambiguation contract holds: an empty or whitespace-only
identifier fails with the empty-identifier error; zero matches fail with
the no-match error whose message carries up to three example task texts as
suggestions, degenerating to the no-tasks-available form when the corpus
is empty; more than one match fails with the ambiguous-match error whose
message enumerates every matching task's text with its section; exactly one
match is returned. -/
theorem claim_C5_disambiguation (cur bl identifier : JSStr) :
    (jsTrim identifier = [] → validateTaskMatch cur bl identifier = .error emptyIdMsg)
  ∧ (∀ ms, findMatchingTasks cur bl identifier = .ok ms →
      (ms = [] → validateTaskMatch cur bl identifier
          = .error (noMatchMsg identifier
              (joinSep commaSep
                ((((findAllTasks cur bl).map (fun t => t.taskText)).take 3).map quoteStr))))
      ∧ (∀ m, ms = [m] → validateTaskMatch cur bl identifier = .ok m)
      ∧ (2 ≤ ms.length → validateTaskMatch cur bl identifier
          = .error (ambiguousMsg identifier (joinSep commaSep (ms.map matchEntry)))))
  ∧ (findAllTasks cur bl = []
      → noMatchMsg identifier
          (joinSep commaSep
            ((((findAllTasks cur bl).map (fun t => t.taskText)).take 3).map quoteStr))
        = noMatchMsg identifier []) := by
  refine ⟨?_, ?_, ?_⟩
  · intro h
    simp [validateTaskMatch, findMatchingTasks, h]
  · intro ms hms
    refine ⟨?_, ?_, ?_⟩
    · intro hnil
      subst hnil
      simp [validateTaskMatch, hms]
    · intro m hm
      subst hm
      simp [validateTaskMatch, hms]
    · intro h2
      cases ms with
      | nil => simp at h2
      | cons m1 tl =>
        cases tl with
        | nil => simp at h2
        | cons m2 rest => simp [validateTaskMatch, hms]
  · intro h
    rw [h]
    rfl

/-- Witness for C5: the ambiguous branch on two tasks both containing the
identifier. -/
theorem claim_C5_disambiguation_witness :
    validateTaskMatch (("# S\n- [ ] Write tests\n- [ ] Write docs").data) (("# Backlog").data)
        (("write").data)
      = .error (ambiguousMsg (("write").data)
          (joinSep commaSep
            (([⟨.current, ('S' :: []), ("Write tests").data, 2, false, false⟩,
               ⟨.current, ('S' :: []), ("Write docs").data, 3, false, false⟩] : List TaskMatch).map
              matchEntry))) :=
  ((claim_C5_disambiguation (("# S\n- [ ] Write tests\n- [ ] Write docs").data)
      (("# Backlog").data) (("write").data)).2.1
    [⟨.current, ('S' :: []), ("Write tests").data, 2, false, false⟩,
     ⟨.current, ('S' :: []), ("Write docs").data, 3, false, false⟩]
    (by decide)).2.2 (by decide)

/-- Parsing the archive after addWeekToArchive: the decomposition of the old
trimmed archive, followed by exactly one new section carrying the week title
and the archived body verbatim. -/
theorem addWeekToArchive_parse (archive archiveDate : JSStr) (body : List JSStr)
    (hD : '\n' ∉ archiveDate)
    (htrim : jsTrim (("Week of ").data ++ archiveDate) = ("Week of ").data ++ archiveDate)
    (hbodyNl : ∀ l ∈ body, '\n' ∉ l)
    (hbodyHd : ∀ l ∈ body, isHeaderLine l = false) :
    (parseMarkdownSections (addWeekToArchive archiveDate body archive)).map sectionPair
      = specSections (if jsTrim archive = [] then [] else splitLines (jsTrim archive) ++ [[]])
        ++ [(("Week of ").data ++ archiveDate, body)] := by
  have hhdNl : '\n' ∉ archiveHeader archiveDate := by
    rw [archiveHeader]
    intro hmem
    rcases List.mem_append.mp hmem with h | h
    · revert h
      decide
    · exact hD h
  have hhdr : isHeaderLine (archiveHeader archiveDate) = true := rfl
  have htitle : titleOfHeader (archiveHeader archiveDate) = ("Week of ").data ++ archiveDate := by
    rw [titleOfHeader, archiveHeader]
    exact htrim
  have hS : splitLines (joinLines (archiveHeader archiveDate :: body))
      = archiveHeader archiveDate :: body := by
    refine splitLines_joinLines _ (by simp) ?_
    intro l hl
    rcases List.mem_cons.mp hl with h | h
    · rw [h]
      exact hhdNl
    · exact hbodyNl l h
  rw [addWeekToArchive, appendToArchive]
  by_cases hT : jsTrim archive = []
  · rw [if_neg (by simp [hT])]
    rw [parse_to_spec, hS, if_pos hT]
    have h0 := specSections_append_header (archiveHeader archiveDate) body hhdr hbodyHd []
    rw [List.nil_append] at h0
    rw [h0, htitle]
  · rw [if_pos hT]
    rw [parse_to_spec]
    have hsplit2 : splitLines (jsTrim archive ++ '\n' :: ('\n' :: joinLines (archiveHeader archiveDate :: body)))
        = splitLines (jsTrim archive) ++ ([] :: (archiveHeader archiveDate :: body)) := by
      rw [splitLines_append_newline]
      congr 1
      rw [splitLines_cons_eq, if_pos rfl, hS]
    rw [hsplit2, if_neg hT]
    have hassoc : splitLines (jsTrim archive) ++ ([] :: (archiveHeader archiveDate :: body))
        = (splitLines (jsTrim archive) ++ [[]]) ++ archiveHeader archiveDate :: body := by
      simp
    rw [hassoc, specSections_append_header _ _ hhdr hbodyHd, htitle]

/-- C2: when the active document has sections titled This Week and Next
Week, the transition rebuilds the active document as the This Week header,
the unfinished tasks of the old This Week section, the entire old Next Week
content unfiltered, and an empty Next Week section; the archive gains
exactly one new final section headed with the archive key whose content is
the old This Week content verbatim; and when either section is missing the
operation fails with the required-sections error without touching any
document. -/
theorem claim_C2_transition (archiveDate today : JSStr) (hasUntracked : Bool) (ws : Workspace) :
    (∀ tw nw,
      (parseMarkdownSections ws.current).find? (fun s => s.title == thisWeekTitle) = some tw →
      (parseMarkdownSections ws.current).find? (fun s => s.title == nextWeekTitle) = some nw →
      '\n' ∉ archiveDate →
      jsTrim (("Week of ").data ++ archiveDate) = ("Week of ").data ++ archiveDate →
      (performWeekTransition archiveDate today hasUntracked ws).1.current
          = joinLines ((("# This Week").data)
              :: ((filterTasksByCompletion tw.content).2 ++ nw.content)
              ++ ([] :: (("# Next Week").data) :: [] :: []))
        ∧ (parseMarkdownSections
              (performWeekTransition archiveDate today hasUntracked ws).1.archive).map sectionPair
            = specSections (if jsTrim ws.archive = [] then []
                else splitLines (jsTrim ws.archive) ++ [[]])
              ++ [(("Week of ").data ++ archiveDate, tw.content)]
        ∧ (performWeekTransition archiveDate today hasUntracked ws).2.2
            = .ok ((("Successfully completed week transition. Archived week of ").data)
                ++ archiveDate ++ ('.' :: [])))
  ∧ (((parseMarkdownSections ws.current).find? (fun s => s.title == thisWeekTitle) = none
      ∨ (parseMarkdownSections ws.current).find? (fun s => s.title == nextWeekTitle) = none) →
      performWeekTransition archiveDate today hasUntracked ws
        = (ws, (if hasUntracked then [("Pre-start-week backup").data] else []),
            .error missingSectionsMsg)) := by
  constructor
  · intro tw nw h1 h2 hD htrim
    have htwMem : tw ∈ parseMarkdownSections ws.current := List.mem_of_find?_eq_some h1
    have hnl : ∀ l ∈ tw.content, '\n' ∉ l := fun l hl =>
      splitLines_no_newline ws.current l
        (sliceOk_content_mem _ _ (parse_sliceOk ws.current tw htwMem) l hl)
    have hnh : ∀ l ∈ tw.content, isHeaderLine l = false :=
      parse_content_no_header ws.current tw htwMem
    refine ⟨?_, ?_, ?_⟩
    · simp only [performWeekTransition, h1, h2]
      rfl
    · simp only [performWeekTransition, h1, h2]
      exact addWeekToArchive_parse ws.archive archiveDate tw.content hD htrim hnl hnh
    · simp only [performWeekTransition, h1, h2]
  · intro h
    cases hf1 : (parseMarkdownSections ws.current).find? (fun s => s.title == thisWeekTitle) with
    | none =>
      cases hf2 : (parseMarkdownSections ws.current).find? (fun s => s.title == nextWeekTitle) with
      | none => simp [performWeekTransition, hf1, hf2]
      | some nw => simp [performWeekTransition, hf1, hf2]
    | some tw =>
      cases hf2 : (parseMarkdownSections ws.current).find? (fun s => s.title == nextWeekTitle) with
      | none => simp [performWeekTransition, hf1, hf2]
      | some nw =>
        rcases h with h | h
        · rw [hf1] at h
          cases h
        · rw [hf2] at h
          cases h

/-- Witness for C2 on a concrete workspace with an empty archive. -/
theorem claim_C2_transition_witness :
    (performWeekTransition (("2024-01-08").data) (("2024-01-15").data) false
        ⟨("# This Week\n- [x] A\n- [ ] B\n\n# Next Week\n- [ ] C\n").data, []⟩).2.2
      = .ok ((("Successfully completed week transition. Archived week of ").data)
          ++ ("2024-01-08").data ++ ('.' :: [])) :=
  ((claim_C2_transition (("2024-01-08").data) (("2024-01-15").data) false
      ⟨("# This Week\n- [x] A\n- [ ] B\n\n# Next Week\n- [ ] C\n").data, []⟩).1
    ⟨("This Week").data, [("- [x] A").data, ("- [ ] B").data, []], 0, 3⟩
    ⟨("Next Week").data, [("- [ ] C").data, []], 4, 6⟩
    (by decide) (by decide) (by decide) (by decide)).2.2

/-- A workspace whose archive already contains the section for the archive
key 2024-01-08. -/
def c1Workspace : Workspace :=
  ⟨("# This Week\n- [x] Done\n- [ ] Open\n\n# Next Week\n- [ ] Future\n").data,
   ("# Week of 2024-01-01\n- [x] Old\n\n# Week of 2024-01-08\n- [x] Already\n").data⟩

/-- The transition run on that workspace with archive key 2024-01-08. -/
def c1Result : Workspace × List JSStr × Except JSStr JSStr :=
  performWeekTransition (("2024-01-08").data) (("2024-01-15").data) true c1Workspace

/-- C1: the transition as implemented has no idempotency guard: run on a
workspace whose archive already holds a section titled exactly with the
archive key, it appends a second section with that same title, modifies the
archive, issues checkpoint commits, and reports ordinary success instead of
the already-archived message the specification and the repository's tests
require. -/
theorem claim_C1_no_idempotency_guard :
    ((parseMarkdownSections c1Result.1.archive).filter
        (fun s => s.title == ("Week of 2024-01-08").data)).length = 2
  ∧ c1Result.1.archive ≠ c1Workspace.archive
  ∧ c1Result.2.1 ≠ []
  ∧ c1Result.2.2
      = .ok (("Successfully completed week transition. Archived week of 2024-01-08.").data) := by
  decide

/-- Witness for C9: line 2 of a three-line document is empty and within
bounds, yet all mutators report it as not found. -/
theorem claim_C9_emptyLine_witness :
    (lineAt (splitLines (("a\n\nb").data)) 2 = some []
        ∧ 2 ≤ (splitLines (("a\n\nb").data)).length)
  ∧ updateTaskStatus (("a\n\nb").data) 2 .completed = .error (lineNotFoundMsg 2)
  ∧ removeTask (("a\n\nb").data) 2 = .error (lineNotFoundMsg 2) :=
  ⟨⟨by decide, by decide⟩,
   (claim_C9_emptyLine (("a\n\nb").data) 2 .completed [] none (by decide)).1,
   (claim_C9_emptyLine (("a\n\nb").data) 2 .completed [] none (by decide)).2.2.2⟩

theorem popTrailingBlanks_subset (l : List JSStr) :
    ∀ x ∈ popTrailingBlanks l, x ∈ l := by
  intro x hx
  rw [popTrailingBlanks] at hx
  rw [List.mem_reverse] at hx
  have h1 : x ∈ l.reverse :=
    List.dropWhile_sublist _ |>.mem hx
  rwa [List.mem_reverse] at h1

theorem get?_append_length {α : Type} (A : List α) (b : α) (B : List α) :
    (A ++ b :: B).get? A.length = some b := by
  induction A with
  | nil => rfl
  | cons a A ih => simpa using ih

/-- Lines of a well-formed description block qualify as description lines
and carry no newline. -/
theorem descLinesOf_props (description : Option JSStr)
    (hdesc : ∀ d, description = some d → d = [] ∨ ∀ dl ∈ splitLines d, jsTrim dl ≠ []) :
    ∀ x ∈ descLinesOf description, descQualifies x = true ∧ '\n' ∉ x := by
  intro x hx
  cases description with
  | none => simp [descLinesOf] at hx
  | some d =>
    by_cases hd : d = []
    · simp only [descLinesOf] at hx
      rw [if_neg (by simp [hd])] at hx
      exact absurd hx (List.not_mem_nil x)
    · simp only [descLinesOf] at hx
      rw [if_pos hd] at hx
      obtain ⟨dl, hdlmem, rfl⟩ := List.mem_map.mp hx
      have htr : jsTrim dl ≠ [] := by
        rcases hdesc d rfl with h | h
        · exact absurd h hd
        · exact h dl hdlmem
      constructor
      · rw [descQualifies]
        have h1 : jsStartsWith (' ' :: ' ' :: dl) (' ' :: ' ' :: []) = true := by
          simp [jsStartsWith]
        rw [h1, jsTrim_two_spaces]
        cases hjt : jsTrim dl with
        | nil => exact absurd hjt htr
        | cons c t => rfl
      · intro hmem2
        rcases List.mem_cons.mp hmem2 with h | h
        · exact absurd h.symm (by decide)
        rcases List.mem_cons.mp h with h | h
        · exact absurd h.symm (by decide)
        · exact splitLines_no_newline d dl hdlmem h

/-- C6 counterexample: inserting a task whose description is a single
whitespace-only line, then deleting at the inserted line number, strands the
indented whitespace line: the result differs from the original document
(whose trailing-blank normalization is the original itself). -/
theorem claim_C6_counterexample :
    addTaskToSection (("# A\n").data) ('A' :: []) ('t' :: []) (some (' ' :: []))
      = .ok (("# A\n- [ ] t\n   \n").data)
  ∧ removeTask (("# A\n- [ ] t\n   \n").data) 2 = .ok (("# A\n   \n").data)
  ∧ (("# A\n   \n").data : JSStr) ≠ ("# A\n").data := by
  decide

/-- C6 (amended: provided the task text contains no newline and every
description line is non-blank): inserting a task into its section and then
removing it at the resulting line number returns the document with the
target section's trailing blank lines normalized to a single blank line,
and is otherwise byte-identical. -/
theorem claim_C6_insert_delete (content sectionTitle taskText : JSStr)
    (description : Option JSStr) (sec : TaskSection)
    (hfind : (parseMarkdownSections content).find?
        (fun s => jsToLower s.title == jsToLower sectionTitle) = some sec)
    (htask : '\n' ∉ taskText)
    (hdesc : ∀ d, description = some d → d = [] ∨ ∀ dl ∈ splitLines d, jsTrim dl ≠ []) :
    ∃ doc', addTaskToSection content sectionTitle taskText description = .ok doc'
      ∧ removeTask doc' (sec.startLine + 2 + (popTrailingBlanks sec.content).length)
          = .ok (joinLines ((splitLines content).take (sec.startLine + 1)
              ++ popTrailingBlanks sec.content
              ++ ([] :: (splitLines content).drop (sec.endLine + 1)))) := by
  have hmem : sec ∈ parseMarkdownSections content := List.mem_of_find?_eq_some hfind
  have hslice := parse_sliceOk content sec hmem
  have hPlen : ((splitLines content).take (sec.startLine + 1)).length = sec.startLine + 1 := by
    rw [List.length_take]
    have := hslice.2.1
    omega
  set lines := splitLines content with hlines
  set P := lines.take (sec.startLine + 1) with hP
  set T := popTrailingBlanks sec.content with hT
  set S := lines.drop (sec.endLine + 1) with hS
  set taskLine : JSStr := '-' :: ' ' :: '[' :: ' ' :: ']' :: ' ' :: taskText with htl
  set DL := descLinesOf description with hDL
  set n := sec.startLine + 2 + T.length with hn
  set L : List JSStr := (P ++ T) ++ taskLine :: (DL ++ ([] :: S)) with hL
  have hDLq : ∀ x ∈ DL, descQualifies x = true := by
    intro x hx
    exact (descLinesOf_props description hdesc x (hDL ▸ hx)).1
  have hDLnl : ∀ x ∈ DL, '\n' ∉ x := by
    intro x hx
    exact (descLinesOf_props description hdesc x (hDL ▸ hx)).2
  have hnl : ∀ x ∈ L, '\n' ∉ x := by
    intro x hx
    rw [hL] at hx
    rcases List.mem_append.mp hx with hx | hx
    · rcases List.mem_append.mp hx with hx | hx
      · exact splitLines_no_newline content x (List.take_subset _ _ hx)
      · exact splitLines_no_newline content x
          (sliceOk_content_mem _ _ hslice x (popTrailingBlanks_subset _ x hx))
    · rcases List.mem_cons.mp hx with hx | hx
      · subst hx
        intro hmem2
        rw [htl] at hmem2
        rcases List.mem_cons.mp hmem2 with h | h
        · exact absurd h.symm (by decide)
        rcases List.mem_cons.mp h with h | h
        · exact absurd h.symm (by decide)
        rcases List.mem_cons.mp h with h | h
        · exact absurd h.symm (by decide)
        rcases List.mem_cons.mp h with h | h
        · exact absurd h.symm (by decide)
        rcases List.mem_cons.mp h with h | h
        · exact absurd h.symm (by decide)
        rcases List.mem_cons.mp h with h | h
        · exact absurd h.symm (by decide)
        · exact htask h
      · rcases List.mem_append.mp hx with hx | hx
        · exact hDLnl x hx
        rcases List.mem_cons.mp hx with hx | hx
        · subst hx
          exact List.not_mem_nil _
        · exact splitLines_no_newline content x (List.drop_subset _ _ hx)
  have hLne : L ≠ [] := by
    rw [hL]
    simp
  have hjoin : splitLines (joinLines L) = L := splitLines_joinLines L hLne hnl
  have hadd : addTaskToSection content sectionTitle taskText description = .ok (joinLines L) := by
    simp only [addTaskToSection, hfind]
    congr 1
    rw [hL, hP, hT, hS, htl, hDL]
    simp [List.append_assoc]
  have hlineAt : lineAt L n = some taskLine := by
    rw [lineAt, if_neg (by omega)]
    have hidx : n - 1 = (P ++ T).length := by
      rw [List.length_append, hP, hPlen]
      omega
    rw [hidx, hL]
    exact get?_append_length (P ++ T) taskLine _
  have hdl : getTaskDescriptionLines L n = DL := by
    have harr : L = ((P ++ T) ++ [taskLine]) ++ (DL ++ ([] :: S)) := by
      rw [hL]
      simp
    have hlen2 : ((P ++ T) ++ [taskLine]).length = n := by
      simp only [List.length_append, List.length_cons, List.length_nil]
      rw [hP, hPlen]
      omega
    have hdrop : L.drop n = DL ++ ([] :: S) := by
      rw [harr]
      exact List.drop_left' hlen2
    rw [getTaskDescriptionLines, hdrop, takeWhile_append_all _ _ _ hDLq,
      takeWhile_cons_false _ _ _ (by decide)]
    simp
  have hremove : removeTask (joinLines L) n = .ok (joinLines ((P ++ T) ++ ([] :: S))) := by
    simp only [removeTask, hjoin, hlineAt]
    rw [if_neg (by rw [htl]; simp)]
    have hhead : taskHeadChar taskLine = some ' ' := rfl
    rw [hhead]
    rw [hdl]
    have htake : L.take (n - 1) = P ++ T := by
      have hidx : n - 1 = (P ++ T).length := by
        rw [List.length_append, hP, hPlen]
        omega
      rw [hidx, hL]
      exact List.take_left _ _
    have hdrop2 : L.drop (n - 1 + DL.length + 1) = [] :: S := by
      have harr2 : L = (((P ++ T) ++ [taskLine]) ++ DL) ++ ([] :: S) := by
        rw [hL]
        simp
      have hlen3 : ((((P ++ T) ++ [taskLine]) ++ DL)).length = n - 1 + DL.length + 1 := by
        simp only [List.length_append, List.length_cons, List.length_nil]
        rw [hP, hPlen]
        omega
      rw [harr2]
      exact List.drop_left' hlen3
    rw [htake, hdrop2]
  refine ⟨joinLines L, hadd, ?_⟩
  rw [hremove]

/-- Witness for C6 on a concrete document, task and two-line description. -/
theorem claim_C6_insert_delete_witness :
    ∃ doc', addTaskToSection (("# A\nx\n\n\n# B\n").data) ('a' :: []) ('t' :: [])
        (some (("d1\nd2").data)) = .ok doc'
      ∧ removeTask doc' (0 + 2 + (popTrailingBlanks [('x' :: []), [], []]).length)
          = .ok (joinLines ((splitLines (("# A\nx\n\n\n# B\n").data)).take (0 + 1)
              ++ popTrailingBlanks [('x' :: []), [], []]
              ++ ([] :: (splitLines (("# A\nx\n\n\n# B\n").data)).drop (3 + 1)))) :=
  claim_C6_insert_delete (("# A\nx\n\n\n# B\n").data) ('a' :: []) ('t' :: [])
    (some (("d1\nd2").data)) ⟨('A' :: []), [('x' :: []), [], []], 0, 3⟩
    (by decide) (by decide)
    (by
      intro d hd
      injection hd with hd
      subst hd
      right
      decide)

end McpTasks
